import Mathlib

/-!
Verification of the two computational cores of the LULC_ISA repository
(`src/classification.js`): the Sentinel-2 cloud-mask predicate of
`maskS2clouds` (lines 22-29) and the per-class area aggregation of
`classAreaList` (lines 142-160).

The script runs on Google Earth Engine; its per-pixel semantics are embedded
shallowly here.  Quality bit fields are natural numbers; reflectance band
values and pixel areas are exact rationals (the script's arithmetic is plain
division and summation); a pixel excluded by `updateMask` is `none` (GEE
masked pixels carry no data, they are not zeroed), a retained pixel is
`some` of its band vector.  The grouped sum reducer
`ee.Reducer.sum().group({groupField: 1})` groups the pixel-area band by the
class-label band, sums each group, and returns the groups sorted by label
ascending; `classAreaList` then divides each group sum by 1e6.
-/

namespace LULC

/-- Mask constant for bit 10 of the QA60 band (`var cloudBitMask = 1 << 10`,
src/classification.js line 24). -/
def cloudBitMask : Nat := 1 <<< 10

/-- Mask constant for bit 11 of the QA60 band (`var cirrusBitMask = 1 << 11`,
src/classification.js line 25). -/
def cirrusBitMask : Nat := 1 <<< 11

/-- Per-pixel cloud-mask predicate of `maskS2clouds` (src/classification.js
lines 26-27): `qa.bitwiseAnd(cloudBitMask).eq(0).and(qa.bitwiseAnd(cirrusBitMask).eq(0))`. -/
def evaluateMask (qa : Nat) : Bool :=
  (qa &&& cloudBitMask == 0) && (qa &&& cirrusBitMask == 0)

/-- Per-pixel effect of `image.updateMask(mask).divide(10000)`
(src/classification.js line 28): a pixel whose mask is false becomes no-data
(`none`, the GEE masked sentinel); a retained pixel has every band divided
by 10000. -/
def applyMaskAndNormalize (r : List ℚ) (m : Bool) : Option (List ℚ) :=
  if m then some (r.map fun v => v / 10000) else none

/-- Whole-pixel semantics of `maskS2clouds` (src/classification.js
lines 22-29): evaluate the QA60 mask, then mask and normalize the
reflectance bands. -/
def maskS2clouds (qa : Nat) (r : List ℚ) : Option (List ℚ) :=
  applyMaskAndNormalize r (evaluateMask qa)

/-- Group sum of the `ee.Reducer.sum().group` reducer (src/classification.js
lines 145-148): the total pixel area contributed by class `c` in the pixel
list. -/
def sumForClass (pixels : List (ℕ × ℚ)) (c : ℕ) : ℚ :=
  ((pixels.filter fun p => decide (p.1 = c)).map Prod.snd).sum

/-- Insertion step of the ascending ordering the grouped reducer gives its
output groups. -/
def insertSorted (c : ℕ) : List ℕ → List ℕ
  | [] => [c]
  | x :: xs => if c ≤ x then c :: x :: xs else x :: insertSorted c xs

/-- Sort a list of class labels ascending (the grouped reducer returns its
groups sorted by group key). -/
def sortLabels : List ℕ → List ℕ
  | [] => []
  | x :: xs => insertSorted x (sortLabels xs)

/-- Distinct class labels occurring in the input, sorted ascending: the group
keys materialized by `ee.Reducer.sum().group` (src/classification.js
lines 145-148). -/
def classLabels (pixels : List (ℕ × ℚ)) : List ℕ :=
  sortLabels (pixels.map Prod.fst).dedup

/-- Embedding of `classAreaList` (src/classification.js lines 142-160):
group the (class, pixel-area) pairs by class, sum each group's area in
square meters, and divide by 1e6 (`ee.Number(areaSqMeters).divide(1e6)`)
to obtain square kilometers. -/
def aggregateAreas (pixels : List (ℕ × ℚ)) : List (ℕ × ℚ) :=
  (classLabels pixels).map fun c => (c, sumForClass pixels c / 1000000)

/-! ### Helper lemmas about the mask predicate -/

/-- Bitwise AND with a single shifted bit is zero exactly when that bit of
the input is clear. -/
theorem and_shift_eq_zero_iff (q i : ℕ) :
    q &&& (1 <<< i) = 0 ↔ q.testBit i = false := by
  rw [Nat.shiftLeft_eq, one_mul, Nat.and_two_pow]
  cases h : q.testBit i <;> simp

/-- The mask predicate in terms of the individual quality bits. -/
theorem evaluateMask_eq_testBit (q : ℕ) :
    evaluateMask q = (!q.testBit 10 && !q.testBit 11) := by
  have h10 := and_shift_eq_zero_iff q 10
  have h11 := and_shift_eq_zero_iff q 11
  unfold evaluateMask cloudBitMask cirrusBitMask
  cases c10 : q.testBit 10 <;> cases c11 : q.testBit 11 <;> simp_all

/-! ### Claim theorems for the cloud mask -/

/-- C1: `evaluateMask q` is true iff both bit extractions
`q AND (1 <<< 10)` and `q AND (1 <<< 11)` equal zero, equivalently iff
bits 10 and 11 of `q` are both clear. -/
theorem evaluateMask_true_iff_bits_clear (q : ℕ) :
    (evaluateMask q = true ↔ q &&& (1 <<< 10) = 0 ∧ q &&& (1 <<< 11) = 0) ∧
    (evaluateMask q = true ↔ q.testBit 10 = false ∧ q.testBit 11 = false) := by
  have h10 := and_shift_eq_zero_iff q 10
  have h11 := and_shift_eq_zero_iff q 11
  have he := evaluateMask_eq_testBit q
  constructor
  · rw [he, h10, h11]
    cases c10 : q.testBit 10 <;> cases c11 : q.testBit 11 <;> simp
  · rw [he]
    cases c10 : q.testBit 10 <;> cases c11 : q.testBit 11 <;> simp

/-- C5: `evaluateMask` depends only on bits 10 and 11 of its input: two
quality bit fields agreeing on those two bits get the same boolean. -/
theorem evaluateMask_depends_only_on_bits_10_11 (q1 q2 : ℕ)
    (h10 : q1.testBit 10 = q2.testBit 10) (h11 : q1.testBit 11 = q2.testBit 11) :
    evaluateMask q1 = evaluateMask q2 := by
  rw [evaluateMask_eq_testBit, evaluateMask_eq_testBit, h10, h11]

/-- Witness for C5 at the spec's example pair 0b000 and 0b0000000001: they
agree on bits 10 and 11, the theorem equates their masks, and both are true. -/
theorem evaluateMask_depends_only_on_bits_10_11_witness :
    Nat.testBit 0 10 = Nat.testBit 1 10 ∧ Nat.testBit 0 11 = Nat.testBit 1 11 ∧
    evaluateMask 0 = evaluateMask 1 ∧ evaluateMask 0 = true ∧ evaluateMask 1 = true :=
  ⟨by decide, by decide,
    evaluateMask_depends_only_on_bits_10_11 0 1 (by decide) (by decide),
    by decide, by decide⟩

/-- C3: masking with `false` yields the no-data sentinel `none`, never a
zeroed band vector, while masking with `true` divides every band by 10000;
an excluded pixel is distinguishable from any retained pixel. -/
theorem applyMaskAndNormalize_spec (r : List ℚ) :
    applyMaskAndNormalize r false = none ∧
    applyMaskAndNormalize r true = some (r.map fun v => v / 10000) ∧
    ∀ w : List ℚ, applyMaskAndNormalize r false ≠ some w :=
  ⟨rfl, rfl, fun _ h => Option.noConfusion h⟩

/-- Witness for C3 at the concrete band vector `[0]`: exclusion is not the
retained zero vector. -/
theorem applyMaskAndNormalize_spec_witness :
    applyMaskAndNormalize [(0 : ℚ)] false ≠ some [0] :=
  (applyMaskAndNormalize_spec [0]).2.2 [0]

/-! ### Helper lemmas about the area aggregation -/

theorem sumForClass_nil (c : ℕ) : sumForClass [] c = 0 := rfl

theorem sumForClass_cons (p : ℕ × ℚ) (l : List (ℕ × ℚ)) (c : ℕ) :
    sumForClass (p :: l) c = (if p.1 = c then p.2 else 0) + sumForClass l c := by
  rw [sumForClass, List.filter_cons]
  by_cases h : p.1 = c
  · simp [h, sumForClass]
  · simp [h, sumForClass]

theorem sumForClass_append (l1 l2 : List (ℕ × ℚ)) (c : ℕ) :
    sumForClass (l1 ++ l2) c = sumForClass l1 c + sumForClass l2 c := by
  simp [sumForClass, List.filter_append]

theorem sumForClass_perm {l l' : List (ℕ × ℚ)} (h : l.Perm l') (c : ℕ) :
    sumForClass l c = sumForClass l' c :=
  ((h.filter _).map Prod.snd).sum_eq

theorem sumForClass_join (shards : List (List (ℕ × ℚ))) (c : ℕ) :
    sumForClass shards.flatten c = (shards.map fun s => sumForClass s c).sum := by
  induction shards with
  | nil => rfl
  | cons s ss ih => simp [List.flatten, sumForClass_append, ih]

theorem sumForClass_eq_zero_of_not_mem {l : List (ℕ × ℚ)} {c : ℕ}
    (h : c ∉ l.map Prod.fst) : sumForClass l c = 0 := by
  have hf : l.filter (fun p => decide (p.1 = c)) = [] := by
    rw [List.filter_eq_nil_iff]
    intro p hp
    simp only [decide_eq_true_eq]
    exact fun hc => h (hc ▸ List.mem_map_of_mem Prod.fst hp)
  simp [sumForClass, hf]

theorem insertSorted_perm (c : ℕ) (l : List ℕ) :
    (insertSorted c l).Perm (c :: l) := by
  induction l with
  | nil => exact List.Perm.refl [c]
  | cons x xs ih =>
    by_cases h : c ≤ x
    · simp [insertSorted, h]
    · rw [insertSorted, if_neg h]
      exact (ih.cons x).trans (List.Perm.swap c x xs)

theorem sortLabels_perm (l : List ℕ) : (sortLabels l).Perm l := by
  induction l with
  | nil => exact List.Perm.refl []
  | cons x xs ih => exact (insertSorted_perm x (sortLabels xs)).trans (ih.cons x)

theorem mem_classLabels {pixels : List (ℕ × ℚ)} {c : ℕ} :
    c ∈ classLabels pixels ↔ c ∈ pixels.map Prod.fst := by
  rw [classLabels, (sortLabels_perm _).mem_iff, List.mem_dedup]

theorem nodup_classLabels (pixels : List (ℕ × ℚ)) : (classLabels pixels).Nodup :=
  ((sortLabels_perm _).nodup_iff).mpr (List.nodup_dedup _)

theorem sum_map_div {α : Type} (L : List α) (f : α → ℚ) (d : ℚ) :
    (L.map fun x => f x / d).sum = (L.map f).sum / d := by
  induction L with
  | nil => simp
  | cons x xs ih => simp [ih, add_div]

theorem sum_map_add {α : Type} (L : List α) (f g : α → ℚ) :
    (L.map fun x => f x + g x).sum = (L.map f).sum + (L.map g).sum := by
  induction L with
  | nil => simp
  | cons x xs ih =>
    simp only [List.map_cons, List.sum_cons, ih]
    ring

theorem sum_map_ite_zero (xs : List ℕ) (a : ℕ) (h : a ∉ xs) (v : ℚ) :
    (xs.map fun c => if a = c then v else 0).sum = 0 := by
  induction xs with
  | nil => simp
  | cons x xs ih =>
    have hax : a ≠ x := fun e => h (e ▸ List.mem_cons_self x xs)
    simp [hax, ih fun hx => h (List.mem_cons_of_mem x hx)]

theorem sum_map_ite (L : List ℕ) (hN : L.Nodup) (a : ℕ) (ha : a ∈ L) (v : ℚ) :
    (L.map fun c => if a = c then v else 0).sum = v := by
  induction L with
  | nil => cases ha
  | cons x xs ih =>
    obtain ⟨hx, hxs⟩ := List.nodup_cons.mp hN
    rcases List.mem_cons.mp ha with h | h
    · subst h
      simp [sum_map_ite_zero xs a hx v]
    · have hax : a ≠ x := fun e => hx (e ▸ h)
      simp [hax, ih hxs h]

theorem sumForClass_map_pair (g : ℕ → ℚ) (L : List ℕ) (hL : L.Nodup) (c : ℕ) :
    sumForClass (L.map fun x => (x, g x)) c = if c ∈ L then g c else 0 := by
  induction L with
  | nil => simp [sumForClass]
  | cons x xs ih =>
    obtain ⟨hx, hxs⟩ := List.nodup_cons.mp hL
    rw [List.map_cons, sumForClass_cons, ih hxs]
    by_cases h : x = c
    · subst h
      simp [fun hc => hx hc]
    · have hcx : c ≠ x := fun e => h e.symm
      simp [h, hcx, List.mem_cons]

theorem sumForClass_aggregateAreas (l : List (ℕ × ℚ)) (c : ℕ) :
    sumForClass (aggregateAreas l) c = sumForClass l c / 1000000 := by
  rw [aggregateAreas, sumForClass_map_pair _ _ (nodup_classLabels l) c]
  by_cases h : c ∈ classLabels l
  · simp [h]
  · rw [if_neg h, sumForClass_eq_zero_of_not_mem (mem_classLabels.not.mp h)]
    simp

theorem sum_sumForClass (l : List (ℕ × ℚ)) (L : List ℕ) (hN : L.Nodup)
    (hC : ∀ p ∈ l, p.1 ∈ L) :
    (L.map fun c => sumForClass l c).sum = (l.map Prod.snd).sum := by
  induction l with
  | nil => simp [sumForClass_nil]
  | cons p l ih =>
    have hC' : ∀ q ∈ l, q.1 ∈ L := fun q hq => hC q (List.mem_cons_of_mem p hq)
    have hcons : (fun c => sumForClass (p :: l) c)
        = fun c => (if p.1 = c then p.2 else 0) + sumForClass l c :=
      funext fun c => sumForClass_cons p l c
    rw [hcons, sum_map_add, ih hC',
      sum_map_ite L hN p.1 (hC p (List.mem_cons_self p l)) p.2]
    simp

theorem keys_aggregateAreas (l : List (ℕ × ℚ)) :
    (aggregateAreas l).map Prod.fst = classLabels l := by
  simp [aggregateAreas, List.map_map, Function.comp_def]

/-! ### Claim theorems for the area aggregation -/

/-- C2: the output of `aggregateAreas` is exactly the group-by-label sums of
pixel area divided by 1e6, and on the spec's example input
`[(1, 500000), (1, 500000), (2, 2000000)]` it returns `{1 : 1.0, 2 : 2.0}`. -/
theorem aggregateAreas_group_sum_div :
    (∀ (l : List (ℕ × ℚ)) (c : ℕ) (r : ℚ),
      ((c, r) ∈ aggregateAreas l ↔ c ∈ l.map Prod.fst ∧ r = sumForClass l c / 1000000)) ∧
    aggregateAreas [(1, 500000), (1, 500000), (2, 2000000)] = [(1, 1), (2, 2)] := by
  constructor
  · intro l c r
    rw [aggregateAreas, List.mem_map]
    constructor
    · rintro ⟨c', hc', he⟩
      injection he with h1 h2
      subst h1
      subst h2
      exact ⟨mem_classLabels.mp hc', rfl⟩
    · rintro ⟨hc, rfl⟩
      exact ⟨c, mem_classLabels.mpr hc, rfl⟩
  · norm_num [aggregateAreas, classLabels, sortLabels, insertSorted, sumForClass,
      List.dedup_cons_of_mem, List.dedup_cons_of_not_mem]

/-- C7: the output mapping has no duplicate label, and a label appears among
its keys exactly when some input pixel carries it; a label with no
contributing pixel is absent altogether, never present with value 0. -/
theorem aggregateAreas_label_presence (l : List (ℕ × ℚ)) (c : ℕ) :
    ((aggregateAreas l).map Prod.fst).Nodup ∧
    ((∃ r, (c, r) ∈ aggregateAreas l) ↔ c ∈ l.map Prod.fst) := by
  refine ⟨keys_aggregateAreas l ▸ nodup_classLabels l, ?_, ?_⟩
  · rintro ⟨r, hr⟩
    obtain ⟨c', hc', he⟩ := List.mem_map.mp hr
    injection he with h1 h2
    subst h1
    exact mem_classLabels.mp hc'
  · intro hc
    exact ⟨sumForClass l c / 1000000,
      List.mem_map.mpr ⟨c, mem_classLabels.mpr hc, rfl⟩⟩

/-- C8: the empty input sequence yields the empty mapping; `aggregateAreas`
is a total function, so no error is possible. -/
theorem aggregateAreas_nil : aggregateAreas [] = [] := rfl

/-- C6: sharding invariance: when the input is any interleaving of a list of
shards, the per-label value of aggregating the whole input equals the
elementwise sum over the shards of the per-label values of aggregating each
shard alone. -/
theorem aggregateAreas_sharding (shards : List (List (ℕ × ℚ)))
    (l : List (ℕ × ℚ)) (h : l.Perm shards.flatten) (c : ℕ) :
    sumForClass (aggregateAreas l) c
      = (shards.map fun s => sumForClass (aggregateAreas s) c).sum := by
  have hfun : (fun s => sumForClass (aggregateAreas s) c)
      = fun s : List (ℕ × ℚ) => sumForClass s c / 1000000 :=
    funext fun s => sumForClass_aggregateAreas s c
  rw [sumForClass_aggregateAreas, sumForClass_perm h c, sumForClass_join, hfun,
    sum_map_div]

/-- Witness for C6: the input `[(1, 1e6), (2, 2e6), (1, 1e6)]` is an
interleaving of the shards `[(1, 1e6)]` and `[(1, 1e6), (2, 2e6)]`, and the
combined value for label 1 equals the sum of the two shard values. -/
theorem aggregateAreas_sharding_witness :
    ([(1, (1000000 : ℚ)), (2, 2000000), (1, 1000000)] : List (ℕ × ℚ)).Perm
      ([[(1, 1000000)], [(1, 1000000), (2, 2000000)]] :
        List (List (ℕ × ℚ))).flatten ∧
    sumForClass (aggregateAreas [(1, 1000000), (2, 2000000), (1, 1000000)]) 1
      = (([[(1, 1000000)], [(1, 1000000), (2, 2000000)]] :
          List (List (ℕ × ℚ))).map fun s => sumForClass (aggregateAreas s) 1).sum :=
  ⟨by decide, aggregateAreas_sharding _ _ (by decide) 1⟩

/-- C10: area conservation: the total of the output values equals the total
input pixel area divided by 1e6; grouping neither loses nor double-counts
area. -/
theorem aggregateAreas_conserves_total (l : List (ℕ × ℚ)) :
    ((aggregateAreas l).map Prod.snd).sum = (l.map Prod.snd).sum / 1000000 := by
  rw [aggregateAreas, List.map_map]
  have hc : (Prod.snd ∘ fun c => (c, sumForClass l c / 1000000))
      = fun c : ℕ => sumForClass l c / 1000000 := rfl
  rw [hc, sum_map_div, sum_sumForClass l (classLabels l) (nodup_classLabels l)
    fun p hp => mem_classLabels.mpr (List.mem_map_of_mem Prod.fst hp)]

/-- Counterexample to C4: on the input `[(5, -2000000)]` — class label 5 is
outside `{0, 1, 2, 3}` and the pixel area is negative — the aggregation does
not fail: it silently returns the mapping `{5 : -2.0}` containing the
invalid entry. -/
theorem aggregateAreas_accumulates_invalid_input :
    ((5 : ℕ) ∉ ([0, 1, 2, 3] : List ℕ)) ∧ ((-2000000 : ℚ) < 0) ∧
    aggregateAreas [(5, -2000000)] = [(5, -2)] := by
  refine ⟨by decide, by norm_num, ?_⟩
  norm_num [aggregateAreas, classLabels, sortLabels, insertSorted, sumForClass]

/-- C4 amended: the aggregation performs no input validation: every label
occurring in the input, in range or not, and every area value, negative or
not, is accumulated into the output mapping; no error is ever signalled. -/
theorem aggregateAreas_no_input_validation (l : List (ℕ × ℚ)) (c : ℕ) (a : ℚ)
    (h : (c, a) ∈ l) :
    (c, sumForClass l c / 1000000) ∈ aggregateAreas l :=
  List.mem_map.mpr ⟨c, mem_classLabels.mpr (List.mem_map_of_mem Prod.fst h), rfl⟩

/-- Witness for the amended C4 at the invalid input `[(5, -2000000)]`. -/
theorem aggregateAreas_no_input_validation_witness :
    ((5, (-2000000 : ℚ)) ∈ ([(5, -2000000)] : List (ℕ × ℚ))) ∧
    (5, sumForClass [(5, -2000000)] 5 / 1000000) ∈ aggregateAreas [(5, -2000000)] :=
  ⟨by decide, aggregateAreas_no_input_validation _ 5 (-2000000) (by decide)⟩

/-- Counterexample to C9: the raw band value 20000 is accepted (nothing in
the code rejects it) and normalizes to 2, which is outside `[0, 1]`. -/
theorem normalize_exceeds_unit_interval :
    applyMaskAndNormalize [(20000 : ℚ)] true = some [2] ∧ ¬ ((2 : ℚ) ≤ 1) := by
  constructor
  · norm_num [applyMaskAndNormalize]
  · norm_num

/-- C9 amended: when every raw band value lies in `[0, 10000]`, every
normalized band value produced by the division by 10000 lies in `[0, 1]`. -/
theorem normalize_in_unit_interval (r : List ℚ)
    (h : ∀ v ∈ r, 0 ≤ v ∧ v ≤ 10000) :
    ∀ w : List ℚ, applyMaskAndNormalize r true = some w → ∀ u ∈ w, 0 ≤ u ∧ u ≤ 1 := by
  intro w hw u hu
  rw [applyMaskAndNormalize, if_pos rfl] at hw
  injection hw with hw
  subst hw
  obtain ⟨v, hv, rfl⟩ := List.mem_map.mp hu
  obtain ⟨h0, h1⟩ := h v hv
  constructor
  · exact div_nonneg h0 (by norm_num)
  · rw [div_le_one (by norm_num)]
    linarith

/-- Witness for the amended C9 at the in-range raw band value 5000. -/
theorem normalize_in_unit_interval_witness :
    (∀ v ∈ [(5000 : ℚ)], 0 ≤ v ∧ v ≤ 10000) ∧
    (∀ u ∈ [(5000 : ℚ) / 10000], 0 ≤ u ∧ u ≤ 1) :=
  ⟨by decide, normalize_in_unit_interval [5000] (by decide) [(5000 : ℚ) / 10000] rfl⟩

end LULC
